import Mathlib

/-!
Shallow embedding of the Tesla dashboard repository (src/Dashboard.py,
src/pages/01_Performance.py, src/tesla.py) for checking the natural-language
specification against the code.  Numeric CSV cells are modelled with exact
rationals (`ℚ`), missing values (pandas NaN) with `Option`, and the HTTP
layer with an explicit oracle `String → FetchResult α`.
-/

namespace Tesla

/-! ### Folder classifier (src/pages/01_Performance.py, `classify_folder`)

The Python code matches a folder name against the anchored regex

  `(?P<manufacturer>[^_]+)_(?P<model>[^_]+)_(?P<variant>[^_]+)_`
  `(?P<model_year>\d+)_(?P<battery>[^_]+)_(?P<front_motor>[^_]+)_`
  `(?P<rear_motor>[^_]+)_(?P<tuning>[^_]+)_(?P<acceleration_mode>[^/]+)`

via `re.match` (a prefix match anchored at the start only) and, on success,
percent-decodes the `tuning` and `acceleration_mode` groups with
`urllib.parse.unquote`.  Because every `[^_]+` group is followed by a literal
underscore, a successful match forces each of the first eight groups to be a
full underscore-free segment and the `\d+` group to be an all-digit segment;
the final `[^/]+` group greedily takes the remaining characters up to the
first slash (at least one).  The parser below implements exactly that
forced decomposition. -/

/-- Value of a hexadecimal digit, as recognised by `urllib.parse.unquote`. -/
def hexVal (c : Char) : Option ℕ :=
  if '0' ≤ c ∧ c ≤ '9' then some (c.toNat - '0'.toNat)
  else if 'a' ≤ c ∧ c ≤ 'f' then some (c.toNat - 'a'.toNat + 10)
  else if 'A' ≤ c ∧ c ≤ 'F' then some (c.toNat - 'A'.toNat + 10)
  else none

/-- `urllib.parse.unquote` on a character list: each `%XY` with two hex
digits is decoded to the byte `16*X + Y`; a `%` not followed by two hex
digits is kept literally.  (Multi-byte UTF-8 escape sequences, which Python
decodes jointly, are modelled byte by byte; all inputs used in the theorems
are ASCII, where the two agree.) -/
def unquoteChars : List Char → List Char
  | [] => []
  | '%' :: a :: b :: rest =>
    match hexVal a, hexVal b with
    | some x, some y => Char.ofNat (16 * x + y) :: unquoteChars rest
    | _, _ => '%' :: unquoteChars (a :: b :: rest)
  | c :: rest => c :: unquoteChars rest

/-- Split a character list at its first underscore (field before it,
remainder after it); `none` when no underscore occurs. -/
def splitAtUnderscore : List Char → Option (List Char × List Char)
  | [] => none
  | c :: rest =>
    if c = '_' then some ([], rest)
    else
      match splitAtUnderscore rest with
      | some (f, r) => some (c :: f, r)
      | none => none

/-- One `[^_]+_` step of the regex: a nonempty underscore-free field
followed by a literal underscore. -/
def splitField (cs : List Char) : Option (List Char × List Char) :=
  match splitAtUnderscore cs with
  | some (f, r) => if f = [] then none else some (f, r)
  | none => none

/-- The record produced by `classify_folder` (the regex `groupdict`):
exactly the nine named groups, no other keys. -/
structure Classified where
  manufacturer : String
  model : String
  variant : String
  model_year : String
  battery : String
  front_motor : String
  rear_motor : String
  tuning : String
  acceleration_mode : String
deriving DecidableEq, Repr

/-- `classify_folder` on the character list of the folder name: the regex
match described above, with `unquote` applied to the `tuning` and
`acceleration_mode` groups, and `None` when the pattern does not match. -/
def classifyChars (cs : List Char) : Option Classified :=
  match splitField cs with
  | none => none
  | some (f1, r1) =>
  match splitField r1 with
  | none => none
  | some (f2, r2) =>
  match splitField r2 with
  | none => none
  | some (f3, r3) =>
  match splitField r3 with
  | none => none
  | some (f4, r4) =>
  if f4.all Char.isDigit then
    match splitField r4 with
    | none => none
    | some (f5, r5) =>
    match splitField r5 with
    | none => none
    | some (f6, r6) =>
    match splitField r6 with
    | none => none
    | some (f7, r7) =>
    match splitField r7 with
    | none => none
    | some (f8, r8) =>
    if r8.takeWhile (fun c => c ≠ '/') = [] then none
    else some ⟨String.mk f1, String.mk f2, String.mk f3, String.mk f4,
      String.mk f5, String.mk f6, String.mk f7,
      String.mk (unquoteChars f8),
      String.mk (unquoteChars (r8.takeWhile (fun c => c ≠ '/')))⟩
  else none

/-- `classify_folder` of the Python source, on `String`. -/
def classify_folder (name : String) : Option Classified :=
  classifyChars name.data

/-- A string that one `[^_]+` group of the pattern can capture (with its
following underscore): nonempty and underscore-free. -/
def goodField (f : List Char) : Prop := f ≠ [] ∧ '_' ∉ f

instance (f : List Char) : Decidable (goodField f) := by
  unfold goodField
  infer_instance

/-- The folder names on which the regex of `classify_folder` succeeds:
eight underscore-terminated fields (the fourth all digits) followed by a
nonempty remainder not starting with a slash (the `[^/]+` group). -/
def matchesPattern (cs : List Char) : Prop :=
  ∃ f1 f2 f3 f4 f5 f6 f7 f8 rest : List Char,
    cs = f1 ++ '_' :: (f2 ++ '_' :: (f3 ++ '_' :: (f4 ++ '_' :: (f5 ++ '_' ::
      (f6 ++ '_' :: (f7 ++ '_' :: (f8 ++ '_' :: rest))))))) ∧
    goodField f1 ∧ goodField f2 ∧ goodField f3 ∧
    f4 ≠ [] ∧ f4.all Char.isDigit = true ∧
    goodField f5 ∧ goodField f6 ∧ goodField f7 ∧ goodField f8 ∧
    rest.takeWhile (fun c => c ≠ '/') ≠ []

/-- Modelled from the spec: the §4.2 grammar reading under which
`acceleration_mode` is optional, so that a name supplying only the first
eight fields (manufacturer through tuning, fourth field numeric) also
matches.  Used to compare the claimed grammar with the code's pattern. -/
def specGrammarEight (cs : List Char) : Prop :=
  ∃ f1 f2 f3 f4 f5 f6 f7 f8 : List Char,
    cs = f1 ++ '_' :: (f2 ++ '_' :: (f3 ++ '_' :: (f4 ++ '_' :: (f5 ++ '_' ::
      (f6 ++ '_' :: (f7 ++ '_' :: f8)))))) ∧
    goodField f1 ∧ goodField f2 ∧ goodField f3 ∧
    f4 ≠ [] ∧ f4.all Char.isDigit = true ∧
    goodField f5 ∧ goodField f6 ∧ goodField f7 ∧ goodField f8

/-- Join fields with single underscores (the inverse of splitting an
underscore-delimited folder name into its fields). -/
def underscoreJoin : List (List Char) → List Char
  | [] => []
  | [f] => f
  | f :: rest => f ++ '_' :: underscoreJoin rest

/-! ### Remote listing crawler (src/pages/01_Performance.py,
`parse_directory` / `scan_and_classify_folders`)

`requests.get` is modelled by an oracle `String → FetchResult α`: `.ok
status body` is a completed HTTP response and `.netRaise` a network
exception raised by `requests.get` (which no code in the repository
catches).  The HTML index page is modelled as the list of anchor hrefs the
parser extracts from it.  `Except.error ()` marks an uncaught Python
exception aborting the interaction. -/

inductive FetchResult (α : Type) where
  | ok (status : ℕ) (body : α)
  | netRaise
deriving DecidableEq

/-- Python `str.strip` with argument `'/'`: remove leading and trailing
slashes. -/
def stripSlashChars (cs : List Char) : List Char :=
  ((cs.dropWhile (fun c => c = '/')).reverse.dropWhile (fun c => c = '/')).reverse

/-- `d.strip` applied with `'/'` on a `String`. -/
def stripSlashes (s : String) : String :=
  String.mk (stripSlashChars s.data)

/-- `urllib.parse.urljoin base d` for the relative child hrefs produced by
a directory index whose base URL ends in a slash: concatenation. -/
def urljoin (base d : String) : String := base ++ d

/-- `parse_directory`: fetch the index page; a non-200 status yields an
empty child list and surfaces `st.error` (the `Bool` in the result records
that a warning was shown); otherwise keep the hrefs ending in a slash.  A
network exception propagates (`Except.error`). -/
def parse_directory (http : String → FetchResult (List String))
    (url : String) : Except Unit (List String × Bool) :=
  match http url with
  | .netRaise => .error ()
  | .ok status hrefs =>
    if status ≠ 200 then .ok ([], true)
    else .ok (hrefs.filter (fun a => a.endsWith "/"), false)

/-- One entry of `classified_folders`: the classification record plus the
resolved folder URL added under the `path` key. -/
structure ClassifiedFolder extends Classified where
  path : String
deriving DecidableEq, Repr

/-- `scan_and_classify_folders`: list the base directory and classify each
child folder name (stripped of slashes), keeping only the matches and
recording each folder's resolved URL. -/
def scan_and_classify_folders (http : String → FetchResult (List String))
    (base : String) : Except Unit (List ClassifiedFolder × Bool) :=
  match parse_directory http base with
  | .error e => .error e
  | .ok (dirs, warn) =>
    .ok (dirs.filterMap (fun d =>
      (classify_folder (stripSlashes d)).map
        (fun c => ⟨c, urljoin base d⟩)), warn)

/-! ### Metadata extractor and cache (src/pages/01_Performance.py,
`fetch_csv_headers_and_first_valid_values`)

A fetched CSV is modelled by its header list and its `SOC` and
`Cell temp mid` columns, each a list of optional rationals (`none` = NaN).
The metadata cache (`metadata_cache`, a Python dict persisted as JSON) is
an association list with most-recent-binding-first lookup. -/

structure CsvData where
  headers : List String
  socCol : List (Option ℚ)
  tempCol : List (Option ℚ)

/-- pandas `Series.ffill` (forward fill), threading the last value seen. -/
def ffillGo (carry : Option ℚ) : List (Option ℚ) → List (Option ℚ)
  | [] => []
  | some x :: rest => some x :: ffillGo (some x) rest
  | none :: rest => carry :: ffillGo carry rest

/-- pandas `Series.ffill`. -/
def ffill (xs : List (Option ℚ)) : List (Option ℚ) := ffillGo none xs

/-- pandas `Series.bfill` (backward fill) = reversed forward fill. -/
def bfill (xs : List (Option ℚ)) : List (Option ℚ) :=
  (ffill xs.reverse).reverse

/-- Row validity used by the metadata extractor (line 225):
`(SOC >= -5) & (SOC <= 101) & (Cell temp mid >= -30) & (Cell temp mid <= 70)`.
A NaN in either column makes every comparison false, so the row is
dropped. -/
def metaRowValid (p : Option ℚ × Option ℚ) : Bool :=
  match p with
  | (some s, some t) =>
    decide (-5 ≤ s) && decide (s ≤ 101) && decide (-30 ≤ t) && decide (t ≤ 70)
  | _ => false

/-- Python 3 `round` to an integer: round half to even. -/
def pythonRound (q : ℚ) : ℤ :=
  if q - ⌊q⌋ < 1 / 2 then ⌊q⌋
  else if q - ⌊q⌋ > 1 / 2 then ⌊q⌋ + 1
  else if ⌊q⌋ % 2 = 0 then ⌊q⌋ else ⌊q⌋ + 1

/-- One cached record: `{'headers': ..., 'SOC': ..., 'Cell temp mid': ...}`. -/
structure MetaEntry where
  headers : List String
  soc : Option ℤ
  temp : Option ℤ
deriving DecidableEq, Repr

/-- The metadata cache keyed by file URL. -/
def Cache := List (String × MetaEntry)

/-- Dict lookup `url in metadata_cache` / `metadata_cache[url]`. -/
def cacheLookup : Cache → String → Option MetaEntry
  | [], _ => none
  | (k, e) :: rest, u => if k = u then some e else cacheLookup rest u

/-- Dict assignment `metadata_cache[url] = entry` (newest binding wins). -/
def cacheInsert (c : Cache) (u : String) (e : MetaEntry) : Cache :=
  (u, e) :: c

/-- `fetch_csv_headers_and_first_valid_values url`: on a cache hit return
the stored record without fetching; on a miss fetch the file (the
response's status code is never inspected, and a raised network exception
propagates), record headers with null summaries when a required column is
missing, otherwise forward/backward fill the two columns, drop rows
outside the validity bounds, and record the first remaining row with both
fields non-null, rounded with Python `round`.  The result is the returned
triple, the updated cache, and the number of network fetches made. -/
def fetchMeta (cache : Cache) (http : String → FetchResult CsvData)
    (url : String) :
    Except Unit ((List String × Option ℤ × Option ℤ) × Cache × ℕ) :=
  match cacheLookup cache url with
  | some e => .ok ((e.headers, e.soc, e.temp), cache, 0)
  | none =>
    match http url with
    | .netRaise => .error ()
    | .ok _ csv =>
      if "SOC" ∉ csv.headers ∨ "Cell temp mid" ∉ csv.headers then
        .ok ((csv.headers, none, none),
          cacheInsert cache url ⟨csv.headers, none, none⟩, 1)
      else
        match (((bfill (ffill csv.socCol)).zip
            (bfill (ffill csv.tempCol))).filter metaRowValid).find?
            (fun p => p.1.isSome && p.2.isSome) with
        | some (some sv, some tv) =>
          .ok ((csv.headers, some (pythonRound sv), some (pythonRound tv)),
            cacheInsert cache url
              ⟨csv.headers, some (pythonRound sv), some (pythonRound tv)⟩, 1)
        | _ =>
          .ok ((csv.headers, none, none),
            cacheInsert cache url ⟨csv.headers, none, none⟩, 1)

/-! ### Attribute filter layer (src/pages/01_Performance.py, lines 241-242)

`filtered_folders = [f for f in classified_folders if
 all(f[k] in v for k, v in selected_filters.items() if k in f)]`.

The filter mapping `selected_filters` is built from the nine attribute
multiselects, so its keys range over the nine attribute names; every
classified record carries all nine keys, so the `if k in f` guard is
always true for those keys. -/

inductive AttrKey where
  | manufacturer | model | variant | model_year | battery
  | front_motor | rear_motor | tuning | acceleration_mode
deriving DecidableEq, Repr

/-- `f[k]` for an attribute key on a classified-folder record. -/
def attrGet (f : ClassifiedFolder) (k : AttrKey) : String :=
  match k with
  | .manufacturer => f.manufacturer
  | .model => f.model
  | .variant => f.variant
  | .model_year => f.model_year
  | .battery => f.battery
  | .front_motor => f.front_motor
  | .rear_motor => f.rear_motor
  | .tuning => f.tuning
  | .acceleration_mode => f.acceleration_mode

/-- `all(f[k] in v for k, v in selected_filters.items() if k in f)`. -/
def passesFilters (filters : List (AttrKey × List String))
    (f : ClassifiedFolder) : Bool :=
  filters.all (fun kv => kv.2.contains (attrGet f kv.1))

/-- The `filtered_folders` list comprehension. -/
def filtered_folders (folders : List ClassifiedFolder)
    (filters : List (AttrKey × List String)) : List ClassifiedFolder :=
  folders.filter (passesFilters filters)

/-! ### File-info range filter (src/pages/01_Performance.py, lines 294-298)

`filtered_file_info` keeps the entries whose cached integer `SOC` and
`Cell temp mid` values lie within the selected closed ranges. -/

structure FileInfo where
  path : String
  soc : ℤ
  temp : ℤ
deriving DecidableEq, Repr

/-- The `filtered_file_info` list comprehension over the cached metadata. -/
def filtered_file_info (infos : List FileInfo)
    (socLo socHi tempLo tempHi : ℤ) : List FileInfo :=
  infos.filter (fun i =>
    decide (socLo ≤ i.soc) && decide (i.soc ≤ socHi) &&
    decide (tempLo ≤ i.temp) && decide (i.temp ≤ tempHi))

/-! ### Series loader row filters (src/pages/01_Performance.py, lines 390-398)

After `df.ffill().bfill()` the plot loop keeps rows with
`(SOC >= 0) & (SOC <= 101) & (Cell temp mid >= 0) & (Cell temp mid <= 70)`
(line 394) and then, when a `Speed` column exists, rows where
`df['Speed'].diff() > 0` (line 398). -/

/-- The plot loop's row-validity predicate (line 394). -/
def seriesRowValid (p : Option ℚ × Option ℚ) : Bool :=
  match p with
  | (some s, some t) =>
    decide (0 ≤ s) && decide (s ≤ 101) && decide (0 ≤ t) && decide (t ≤ 70)
  | _ => false

/-- The plot loop's validity filter over (SOC, Cell temp mid) rows. -/
def seriesValidityFilter (rows : List (Option ℚ × Option ℚ)) :
    List (Option ℚ × Option ℚ) :=
  rows.filter seriesRowValid

/-- One series-frame row, carrying the fields the claims mention: the
`Speed` cell consulted by the code's filter and an accelerator-pedal cell
(which the code never reads). -/
structure SRow where
  speed : ℚ
  pedal : ℚ
deriving DecidableEq, Repr

/-- pandas `Series.diff`: NaN first, then successive differences. -/
def pandasDiff (xs : List ℚ) : List (Option ℚ) :=
  match xs with
  | [] => []
  | x :: rest => none :: rest.zipWith (fun b a => some (b - a)) (x :: rest)

/-- The boolean mask `diff > 0` (NaN compares false). -/
def maskGTZero (ds : List (Option ℚ)) : List Bool :=
  ds.map (fun d =>
    match d with
    | some v => decide (0 < v)
    | none => false)

/-- pandas boolean-mask row selection `df[mask]`. -/
def filterByMask {α : Type} : List α → List Bool → List α
  | [], _ => []
  | _, [] => []
  | x :: xs, b :: bs =>
    if b then x :: filterByMask xs bs else filterByMask xs bs

/-- Line 398: `df = df[df['Speed'].diff() > 0]`. -/
def speedDiffFilter (rows : List SRow) : List SRow :=
  filterByMask rows (maskGTZero (pandasDiff (rows.map SRow.speed)))

/-- Modelled from the spec: the full-throttle restriction as §4.5 words it,
keeping exactly the rows whose accelerator-pedal field equals that field's
maximum over the frame. -/
def specFullThrottleFilter (rows : List SRow) : List SRow :=
  rows.filter (fun r => rows.all (fun q => decide (q.pedal ≤ r.pedal)))

/-- Direct description of what line 398 actually retains: the rows that
are strictly faster than their predecessor (the first row, whose `diff`
is NaN, is always dropped). -/
def increasingSteps : SRow → List SRow → List SRow
  | _, [] => []
  | p, y :: ys =>
    if p.speed < y.speed then y :: increasingSteps y ys
    else increasingSteps y ys

/-- `increasingSteps` started at the head row. -/
def strictlyFasterRows : List SRow → List SRow
  | [] => []
  | x :: xs => increasingSteps x xs

/-! ### Display smoothing (src/pages/01_Performance.py, lines 404-451)

`uniform_filter1d(col, size=15)` from `scipy.ndimage` with its default
parameters (`mode='reflect'`, `origin=0`): output position `i` is the
average of the window `i - size/2 … i - size/2 + size - 1` over the input
extended by whole-signal reflection, modelled in exact rational
arithmetic. -/

/-- Index into the reflect-mode extension of a length-`n` signal: the
extended signal is periodic with period `2n`, one period being the signal
followed by its reversal. -/
def reflectIdx (n : ℕ) (j : ℤ) : ℕ :=
  if (j.emod (2 * n)).toNat < n then (j.emod (2 * n)).toNat
  else 2 * n - 1 - (j.emod (2 * n)).toNat

/-- `scipy.ndimage.uniform_filter1d xs size` (default reflect boundary). -/
def uniform_filter1d (xs : List ℚ) (size : ℕ) : List ℚ :=
  (List.range xs.length).map (fun (i : ℕ) =>
    (∑ k ∈ Finset.range size,
      xs.getD (reflectIdx xs.length ((i : ℤ) + (k : ℤ) - (size / 2 : ℕ))) 0)
    / (size : ℚ))

/-! ### Degradation ingest (src/Dashboard.py, `fetch_data`, lines 104-124)

Per Degradation cell the pipeline is: replace commas with dots (line 105),
prepend a minus sign (line 111), replace an exact `-0.0%` with NaN
(line 114), strip every `%` and parse with `pd.to_numeric(..., coerce)`
(line 124), which yields NaN (`none`) on anything that is not a decimal
numeral. -/

/-- Line 105: `x.str.replace(',', '.')` on one cell. -/
def commaToDot (cs : List Char) : List Char :=
  cs.map (fun c => if c = ',' then '.' else c)

/-- Numeric value of a digit string. -/
def digitsToNat (cs : List Char) : ℕ :=
  cs.foldl (fun acc c => 10 * acc + (c.toNat - '0'.toNat)) 0

/-- Unsigned decimal numeral `digits[.digits]` (at least one digit), the
fragment of Python float syntax the Degradation cells use. -/
def parseUnsigned (cs : List Char) : Option ℚ :=
  let ip := cs.takeWhile Char.isDigit
  match cs.drop ip.length with
  | [] => if ip = [] then none else some (digitsToNat ip)
  | '.' :: fp =>
    if fp.all Char.isDigit ∧ (ip ≠ [] ∨ fp ≠ []) then
      some ((digitsToNat ip : ℚ) + (digitsToNat fp : ℚ) / (10 : ℚ) ^ fp.length)
    else none
  | _ => none

/-- Signed decimal numeral, as accepted by `pd.to_numeric` on these cells;
`none` models coercion to NaN. -/
def parseFloat (cs : List Char) : Option ℚ :=
  match cs with
  | '-' :: rest => (parseUnsigned rest).map (fun q => -q)
  | '+' :: rest => parseUnsigned rest
  | _ => parseUnsigned cs

/-- Line 124: `str.replace('%', '')` on one cell. -/
def removePercent (cs : List Char) : List Char :=
  cs.filter (fun c => c ≠ '%')

/-- The whole Degradation ingest pipeline on one cell. -/
def degradationIngest (cell : List Char) : Option ℚ :=
  let s := '-' :: commaToDot cell
  if s = ['-', '0', '.', '0', '%'] then none
  else parseFloat (removePercent s)

/-! ## Helper lemmas -/

theorem splitAtUnderscore_append (f r : List Char) (h : '_' ∉ f) :
    splitAtUnderscore (f ++ '_' :: r) = some (f, r) := by
  induction f with
  | nil => simp [splitAtUnderscore]
  | cons c f ih =>
    have hc : ¬ c = '_' := fun e => h (e ▸ List.mem_cons_self c f)
    have ih2 := ih (fun m => h (List.mem_cons_of_mem c m))
    simp [splitAtUnderscore, hc, ih2]

theorem splitAtUnderscore_sound : ∀ {cs f r : List Char},
    splitAtUnderscore cs = some (f, r) → cs = f ++ '_' :: r ∧ '_' ∉ f := by
  intro cs
  induction cs with
  | nil => intro f r h; simp [splitAtUnderscore] at h
  | cons c rest ih =>
    intro f r h
    by_cases hc : c = '_'
    · subst hc
      simp [splitAtUnderscore] at h
      obtain ⟨hf, hr⟩ := h
      subst hf; subst hr
      simp
    · rcases hrec : splitAtUnderscore rest with _ | ⟨f2, r2⟩ <;>
        simp [splitAtUnderscore, hc, hrec] at h
      obtain ⟨hf, hr⟩ := h
      subst hf; subst hr
      obtain ⟨hcs, hnu⟩ := ih hrec
      subst hcs
      refine ⟨rfl, ?_⟩
      simp only [List.mem_cons, not_or]
      exact ⟨fun e => hc e.symm, hnu⟩

theorem splitField_eq_some {cs f r : List Char} :
    splitField cs = some (f, r) ↔ cs = f ++ '_' :: r ∧ f ≠ [] ∧ '_' ∉ f := by
  constructor
  · intro h
    unfold splitField at h
    rcases hs : splitAtUnderscore cs with _ | ⟨f0, r0⟩ <;> rw [hs] at h
    · exact absurd h (by simp)
    · by_cases h0 : f0 = [] <;> simp [h0] at h
      obtain ⟨hf, hr⟩ := h
      subst hf; subst hr
      obtain ⟨hcs, hnu⟩ := splitAtUnderscore_sound hs
      exact ⟨hcs, h0, hnu⟩
  · rintro ⟨rfl, hne, hnu⟩
    unfold splitField
    rw [splitAtUnderscore_append f r hnu]
    simp [hne]

theorem unquoteChars_ne_nil : ∀ {cs : List Char}, cs ≠ [] → unquoteChars cs ≠ [] := by
  intro cs h
  rcases cs with _ | ⟨c, rest⟩
  · exact absurd rfl h
  rcases rest with _ | ⟨a, rest1⟩
  · simp [unquoteChars]
  rcases rest1 with _ | ⟨b, rest2⟩
  · simp [unquoteChars]
  by_cases hc : c = '%'
  · subst hc
    rcases hx : hexVal a with _ | x <;> rcases hy : hexVal b with _ | y <;>
      simp [unquoteChars, hx, hy]
  · simp [unquoteChars, hc]

theorem mk_ne_empty {f : List Char} (h : f ≠ []) : String.mk f ≠ "" :=
  fun e => h (congrArg String.data e)

/-! ## C3 — series-loader validity bounds versus metadata bounds -/

/-- C3 counterexample: the claim says the series loader retains every row
with SOC in [-5, 101] and temperature in [-30, 70] (the metadata
extractor's predicate), but the plot loop (line 394) drops the row
(SOC = -1, Cell temp mid = 25) that the metadata predicate (line 225)
accepts: the two validity predicates are not equal. -/
theorem series_filter_drops_meta_valid_row :
    seriesValidityFilter [(some (-1), some 25)] = [] ∧
      metaRowValid (some (-1), some 25) = true ∧
      seriesRowValid (some (-1), some 25) = false := by
  have hfalse : seriesRowValid (some (-1), some 25) = false := by
    rw [Bool.eq_false_iff]
    simp only [ne_eq, seriesRowValid, Bool.and_eq_true, decide_eq_true_eq]
    rintro ⟨⟨⟨h, -⟩, -⟩, -⟩
    norm_num at h
  refine ⟨?_, ?_, hfalse⟩
  · simp [seriesValidityFilter, List.filter_cons, hfalse]
  · simp only [metaRowValid, Bool.and_eq_true, decide_eq_true_eq]
    norm_num

/-- C3 amended: the series loader's row filter (line 394) retains a row
exactly when its SOC lies in [0, 101] and its cell temperature in [0, 70]
(both fields non-NaN); this is strictly narrower than, not equal to, the
metadata extractor's predicate, which it implies. -/
theorem seriesRowValid_characterization :
    (∀ s t : ℚ, seriesRowValid (some s, some t) =
      decide (0 ≤ s ∧ s ≤ 101 ∧ 0 ≤ t ∧ t ≤ 70)) ∧
    (∀ rows : List (Option ℚ × Option ℚ),
      seriesValidityFilter rows = rows.filter seriesRowValid) ∧
    (∀ p : Option ℚ × Option ℚ, seriesRowValid p = true → metaRowValid p = true) := by
  refine ⟨?_, fun _ => rfl, ?_⟩
  · intro s t
    simp [seriesRowValid, Bool.and_assoc]
  · rintro ⟨s, t⟩ h
    rcases s with _ | s
    · simp only [seriesRowValid] at h
      exact absurd h (by simp)
    rcases t with _ | t
    · simp only [seriesRowValid] at h
      exact absurd h (by simp)
    simp only [seriesRowValid, Bool.and_eq_true, decide_eq_true_eq] at h
    obtain ⟨⟨⟨h1, h2⟩, h3⟩, h4⟩ := h
    simp only [metaRowValid, Bool.and_eq_true, decide_eq_true_eq]
    exact ⟨⟨⟨by linarith, h2⟩, by linarith⟩, h4⟩

/-- Witness for the amended C3 theorem at a concrete row. -/
theorem seriesRowValid_characterization_witness :
    metaRowValid (some 5, some 20) = true :=
  seriesRowValid_characterization.2.2 (some 5, some 20)
    (by simp [seriesRowValid]; norm_num)

/-! ## C4 — attribute filtering semantics -/

/-- C4: a record passes `filtered_folders` iff for every filter key its
value for that key is among the selected values (conjunctive across
attributes, disjunctive within one); the empty filter mapping is the
identity; a singleton filter value held by no record empties the list. -/
theorem filtered_folders_spec (folders : List ClassifiedFolder)
    (filters : List (AttrKey × List String)) :
    (∀ f, f ∈ filtered_folders folders filters ↔
      f ∈ folders ∧ ∀ kv ∈ filters, attrGet f kv.1 ∈ kv.2) ∧
    filtered_folders folders [] = folders ∧
    (∀ (k : AttrKey) (v : String), (∀ f ∈ folders, attrGet f k ≠ v) →
      filtered_folders folders [(k, [v])] = []) := by
  refine ⟨?_, ?_, ?_⟩
  · intro f
    simp [filtered_folders, List.mem_filter, passesFilters, List.all_eq_true,
      List.elem_iff]
  · exact List.filter_eq_self.mpr (fun f _ => rfl)
  · intro k v h
    refine List.filter_eq_nil_iff.mpr (fun f hf => ?_)
    simp [passesFilters, List.elem_iff]
    exact fun e => h f hf (by simp [e])

/-- Witness for C4 at concrete records and filters. -/
theorem filtered_folders_spec_witness :
    filtered_folders
        [⟨⟨"Tesla", "Model3", "LR", "2022", "P", "S", "S", "Stock", "Sport"⟩, "u"⟩]
        [(AttrKey.model, ["X"])] = [] :=
  (filtered_folders_spec
      [⟨⟨"Tesla", "Model3", "LR", "2022", "P", "S", "S", "Stock", "Sport"⟩, "u"⟩]
      [(AttrKey.model, ["X"])]).2.2 AttrKey.model "X" (by decide)

/-! ## C5 — the "full-throttle" restriction -/

/-- C5 counterexample: on a frame whose accelerator pedal is constantly at
its maximum (100) the claim says every row is retained, but line 398
(`df[df['Speed'].diff() > 0]`) retains none of them, because it filters on
strictly increasing speed, not on the accelerator-pedal maximum. -/
theorem speed_filter_is_not_pedal_max :
    speedDiffFilter [⟨10, 100⟩, ⟨5, 100⟩] = [] ∧
      specFullThrottleFilter [⟨10, 100⟩, ⟨5, 100⟩] = [⟨10, 100⟩, ⟨5, 100⟩] := by
  constructor
  · simp only [speedDiffFilter, pandasDiff, maskGTZero, filterByMask,
      List.map, List.zipWith]
    norm_num [filterByMask]
  · simp only [specFullThrottleFilter, List.filter, List.all]
    norm_num

theorem increasingSteps_eq_mask_filter (ys : List SRow) : ∀ p : SRow,
    filterByMask ys (maskGTZero ((ys.map SRow.speed).zipWith
      (fun b a => some (b - a)) (p.speed :: ys.map SRow.speed))) =
    increasingSteps p ys := by
  induction ys with
  | nil => intro p; rfl
  | cons y ys ih =>
    intro p
    have hmask : maskGTZero (((y :: ys).map SRow.speed).zipWith
        (fun b a => some (b - a)) (p.speed :: (y :: ys).map SRow.speed)) =
        decide (p.speed < y.speed) :: maskGTZero ((ys.map SRow.speed).zipWith
          (fun b a => some (b - a)) (y.speed :: ys.map SRow.speed)) := by
      simp only [List.map_cons, List.zipWith_cons_cons, maskGTZero]
      congr 1
      simp [sub_pos]
    rw [hmask]
    by_cases h : p.speed < y.speed <;>
      simp [filterByMask, increasingSteps, h, ih y]

/-- C5 amended: the restriction applied by the series loader retains
exactly the rows that are strictly faster than their predecessor (the
first row is always dropped); no accelerator-pedal field is consulted. -/
theorem speedDiffFilter_eq_strictlyFaster (rows : List SRow) :
    speedDiffFilter rows = strictlyFasterRows rows := by
  rcases rows with _ | ⟨x, xs⟩
  · rfl
  · simp only [speedDiffFilter, pandasDiff, List.map, maskGTZero,
      filterByMask, strictlyFasterRows]
    exact increasingSteps_eq_mask_filter xs x

/-! ## C7 — smoothing transform properties -/

theorem reflectIdx_lt (n : ℕ) (hn : 0 < n) (j : ℤ) : reflectIdx n j < n := by
  have hb : (0 : ℤ) < 2 * (n : ℤ) := by
    have : (0 : ℤ) < (n : ℤ) := by exact_mod_cast hn
    linarith
  have h1 := Int.emod_nonneg j (ne_of_gt hb)
  have h2 := Int.emod_lt_of_pos j hb
  unfold reflectIdx
  split
  · assumption
  · omega

theorem getD_replicate (n : ℕ) (c : ℚ) : ∀ i : ℕ, i < n →
    (List.replicate n c).getD i 0 = c := by
  induction n with
  | zero => intro i h; omega
  | succ n ih =>
    intro i h
    cases i with
    | zero => rfl
    | succ i => exact ih i (by omega)

/-- C7: applying `uniform_filter1d` with window size 15 preserves the
length of every series, and maps every constant series to itself (exact
rational arithmetic). -/
theorem uniform_filter1d_length_and_const :
    (∀ xs : List ℚ, (uniform_filter1d xs 15).length = xs.length) ∧
    (∀ (n : ℕ) (c : ℚ), uniform_filter1d (List.replicate n c) 15 = List.replicate n c) := by
  constructor
  · intro xs
    simp only [uniform_filter1d, List.length_map, List.length_range]
  · intro n c
    apply List.eq_replicate_iff.mpr
    constructor
    · simp only [uniform_filter1d, List.length_map, List.length_range,
        List.length_replicate]
    · intro b hb
      simp only [uniform_filter1d, List.length_replicate, List.mem_map,
        List.mem_range] at hb
      obtain ⟨i, hi, hb⟩ := hb
      have hn : 0 < n := by omega
      have hsum : ∀ k ∈ Finset.range 15,
          (List.replicate n c).getD
            (reflectIdx n ((i : ℤ) + (k : ℤ) - ((15 / 2 : ℕ) : ℤ))) 0 = c :=
        fun k _ => getD_replicate n c _ (reflectIdx_lt n hn _)
      rw [← hb, Finset.sum_congr rfl hsum, Finset.sum_const, Finset.card_range,
        nsmul_eq_mul]
      norm_num

/-! ## C8 — Degradation sign flip on ingest -/

/-- C8 counterexample: the cell `0.0%` (or `0,0%`) is a percentage string
stating 0.0, whose negation is 0, but the ingest pipeline maps it to NaN
(line 114 replaces the constructed `-0.0%` with NaN before parsing). -/
theorem degradation_zero_cell_is_nan :
    degradationIngest ['0', '.', '0', '%'] = none ∧
      degradationIngest ['0', ',', '0', '%'] = none ∧
      parseFloat ['0', '.', '0'] = some 0 := by
  refine ⟨rfl, rfl, ?_⟩
  show parseUnsigned ['0', '.', '0'] = some 0
  simp [parseUnsigned, List.takeWhile, Char.isDigit, digitsToNat, List.foldl]

/-- C8 amended: for every Degradation cell that is an unsigned percentage
string (comma-normalised form `body ++ "%"` with `body` a plain decimal
numeral) other than the zero form `0.0`, `fetch_data` produces the
negation of the stated percentage; the `0,0%` / `0.0%` cell instead
becomes NaN (see the counterexample). -/
theorem degradation_sign_flip (cell body : List Char) (q : ℚ)
    (hsplit : commaToDot cell = body ++ ['%'])
    (hnop : '%' ∉ body)
    (hbody : body ≠ ['0', '.', '0'])
    (hval : parseUnsigned body = some q) :
    degradationIngest cell = some (-q) := by
  unfold degradationIngest
  rw [hsplit]
  have hne : ¬ ('-' :: (body ++ ['%'])) = ['-', '0', '.', '0', '%'] := by
    intro e
    injection e with _ e2
    have e3 : body ++ ['%'] = ['0', '.', '0'] ++ ['%'] := e2
    exact hbody (List.append_cancel_right e3)
  rw [if_neg hne]
  have hfb : List.filter (fun c => decide (c ≠ '%')) body = body :=
    List.filter_eq_self.mpr (fun c hc =>
      decide_eq_true (fun e => hnop (e ▸ hc)))
  have hrp : removePercent ('-' :: (body ++ ['%'])) = '-' :: body := by
    simp only [removePercent, List.filter_cons, List.filter_append, hfb]
    norm_num
    decide
  rw [hrp]
  simp [parseFloat, hval]

/-- Witness for the amended C8 theorem: the cell `5,5%` ingests to −5.5. -/
theorem degradation_sign_flip_witness :
    degradationIngest ['5', ',', '5', '%'] = some (-(11 / 2 : ℚ)) :=
  degradation_sign_flip ['5', ',', '5', '%'] ['5', '.', '5'] (11 / 2) rfl
    (by decide) (by decide)
    (by simp [parseUnsigned, List.takeWhile, Char.isDigit, digitsToNat,
      List.foldl]; norm_num)

/-! ## C1 — metadata-cache idempotence -/

theorem cacheLookup_insert (c : Cache) (u : String) (e : MetaEntry) :
    cacheLookup (cacheInsert c u e) u = some e := by
  simp [cacheLookup, cacheInsert]

theorem fetchMeta_hit (cache : Cache) (http : String → FetchResult CsvData)
    (url : String) (e : MetaEntry) (h : cacheLookup cache url = some e) :
    fetchMeta cache http url = .ok ((e.headers, e.soc, e.temp), cache, 0) := by
  unfold fetchMeta
  rw [h]

/-- C1: whenever a call of `fetch_csv_headers_and_first_valid_values`
completes with result `r`, cache state `c2` and some fetch count, calling
it again with cache `c2` and the same remote content returns exactly the
same triple `r`, leaves the cache at `c2`, and performs zero network
fetches. -/
theorem fetchMeta_idempotent (cache : Cache)
    (http : String → FetchResult CsvData) (url : String)
    (r : List String × Option ℤ × Option ℤ) (c2 : Cache) (n : ℕ)
    (h : fetchMeta cache http url = .ok (r, c2, n)) :
    fetchMeta c2 http url = .ok (r, c2, 0) := by
  unfold fetchMeta at h
  split at h
  case h_1 e hl =>
    simp only [Except.ok.injEq, Prod.mk.injEq] at h
    obtain ⟨hr, hc, -⟩ := h
    subst hc
    rw [← hr]
    exact fetchMeta_hit _ http url e hl
  case h_2 hl =>
    split at h
    case h_1 => exact Except.noConfusion h
    case h_2 st csv =>
      split at h
      · simp only [Except.ok.injEq, Prod.mk.injEq] at h
        obtain ⟨hr, hc, -⟩ := h
        subst hc
        rw [← hr]
        exact fetchMeta_hit _ http url _ (cacheLookup_insert cache url _)
      · split at h <;>
          (simp only [Except.ok.injEq, Prod.mk.injEq] at h
           obtain ⟨hr, hc, -⟩ := h
           subst hc
           rw [← hr]
           exact fetchMeta_hit _ http url _ (cacheLookup_insert cache url _))

/-- Witness for C1: a first call on an empty cache (here for a file
missing the required columns), then the second call replays the stored
record with zero fetches. -/
theorem fetchMeta_idempotent_witness :
    fetchMeta (cacheInsert [] "u" ⟨["Speed"], none, none⟩)
        (fun _ => FetchResult.ok 200 ⟨["Speed"], [], []⟩) "u" =
      .ok (((["Speed"] : List String), (none : Option ℤ), (none : Option ℤ)),
        cacheInsert [] "u" ⟨["Speed"], none, none⟩, 0) :=
  fetchMeta_idempotent [] (fun _ => FetchResult.ok 200 ⟨["Speed"], [], []⟩) "u"
    (["Speed"], none, none) (cacheInsert [] "u" ⟨["Speed"], none, none⟩) 1 rfl

/-! ## C9 — metadata values are recorded with Python round -/

/-- C9: on a cache miss where both required columns are present and a
first valid row `(sv, tv)` exists, the extractor returns and caches
`round sv` and `round tv` (Python banker's rounding), not the raw
readings, and the downstream range filter over the cached metadata
(`filtered_file_info`) compares exactly these rounded integers against
the selected closed ranges. -/
theorem fetchMeta_returns_rounded (cache : Cache)
    (http : String → FetchResult CsvData) (url : String) (st : ℕ)
    (csv : CsvData) (sv tv : ℚ)
    (hmiss : cacheLookup cache url = none)
    (hhttp : http url = .ok st csv)
    (hsoc : "SOC" ∈ csv.headers) (htemp : "Cell temp mid" ∈ csv.headers)
    (hfind : (((bfill (ffill csv.socCol)).zip
        (bfill (ffill csv.tempCol))).filter metaRowValid).find?
        (fun p => p.1.isSome && p.2.isSome) = some (some sv, some tv)) :
    fetchMeta cache http url =
      .ok ((csv.headers, some (pythonRound sv), some (pythonRound tv)),
        cacheInsert cache url
          ⟨csv.headers, some (pythonRound sv), some (pythonRound tv)⟩, 1) ∧
    (∀ socLo socHi tempLo tempHi : ℤ,
      filtered_file_info [⟨url, pythonRound sv, pythonRound tv⟩]
          socLo socHi tempLo tempHi =
        if socLo ≤ pythonRound sv ∧ pythonRound sv ≤ socHi ∧
            tempLo ≤ pythonRound tv ∧ pythonRound tv ≤ tempHi
        then [⟨url, pythonRound sv, pythonRound tv⟩] else []) := by
  constructor
  · unfold fetchMeta
    simp only [hmiss, hhttp]
    rw [if_neg (by simp [hsoc, htemp])]
    simp only [hfind]
  · intro socLo socHi tempLo tempHi
    by_cases h : socLo ≤ pythonRound sv ∧ pythonRound sv ≤ socHi ∧
        tempLo ≤ pythonRound tv ∧ pythonRound tv ≤ tempHi
    · rw [if_pos h]
      simp [filtered_file_info, List.filter_cons, h.1, h.2.1, h.2.2.1, h.2.2.2]
    · rw [if_neg h]
      simp only [filtered_file_info, List.filter_cons, List.filter_nil]
      rw [if_neg ?holds]
      case holds =>
        intro hcond
        apply h
        simp only [Bool.and_eq_true, decide_eq_true_eq] at hcond
        obtain ⟨⟨⟨h1, h2⟩, h3⟩, h4⟩ := hcond
        exact ⟨h1, h2, h3, h4⟩

/-- Witness for C9: SOC reading 20.5 is cached and returned as the
rounded integer 20 (banker's rounding), not as the raw 20.5. -/
theorem fetchMeta_returns_rounded_witness :
    fetchMeta []
        (fun _ => FetchResult.ok 200
          ⟨["SOC", "Cell temp mid", "Speed"], [some (41 / 2)], [some 25]⟩) "u" =
      .ok (((["SOC", "Cell temp mid", "Speed"] : List String),
          some (20 : ℤ), some (25 : ℤ)),
        cacheInsert [] "u" ⟨["SOC", "Cell temp mid", "Speed"],
          some (20 : ℤ), some (25 : ℤ)⟩, 1) := by
  have h20 : pythonRound (41 / 2) = 20 := by
    unfold pythonRound
    norm_num
  have h25 : pythonRound 25 = 25 := by
    unfold pythonRound
    norm_num
  have h := (fetchMeta_returns_rounded []
    (fun _ => FetchResult.ok 200
      ⟨["SOC", "Cell temp mid", "Speed"], [some (41 / 2)], [some 25]⟩) "u" 200
    ⟨["SOC", "Cell temp mid", "Speed"], [some (41 / 2)], [some 25]⟩ (41 / 2) 25
    rfl rfl (by decide) (by decide)
    (by
      simp only [ffill, ffillGo, bfill, List.reverse_cons, List.reverse_nil,
        List.nil_append, List.zip_cons_cons, List.zip_nil_right,
        List.filter_cons, List.filter_nil]
      rw [if_pos ?hvalid]
      case hvalid =>
        simp only [metaRowValid, Bool.and_eq_true, decide_eq_true_eq]
        norm_num
      simp [List.find?])).1
  rw [h20, h25] at h
  exact h

/-! ## C6 — transport-failure recovery -/

/-- C6 counterexample: a network exception raised while fetching the base
directory aborts the whole crawl (`requests.get` is not wrapped in
try/except anywhere), contradicting the claim that such failures are
recovered with an empty child set and never abort the crawl. -/
theorem crawl_aborts_on_net_exception :
    scan_and_classify_folders (fun _ => FetchResult.netRaise)
      "https://nginx.eivissacopter.com/smt/" = Except.error () := rfl

/-- C6 amended: only the non-200-status case of `parse_directory` is
recovered (empty child list plus a surfaced warning, crawl continues); a
network exception propagates out of the crawl and aborts it, and per-file
metadata extraction neither checks the status code nor catches network
exceptions, which likewise propagate. -/
theorem crawl_error_recovery (http : String → FetchResult (List String))
    (hcsv : String → FetchResult CsvData) (base url : String) (cache : Cache) :
    (∀ status hrefs, http base = .ok status hrefs → status ≠ 200 →
      scan_and_classify_folders http base = .ok ([], true)) ∧
    (http base = .netRaise → scan_and_classify_folders http base = .error ()) ∧
    (cacheLookup cache url = none → hcsv url = .netRaise →
      fetchMeta cache hcsv url = .error ()) := by
  refine ⟨?_, ?_, ?_⟩
  · intro status hrefs h hs
    unfold scan_and_classify_folders parse_directory
    simp only [h]
    rw [if_pos hs]
    rfl
  · intro h
    unfold scan_and_classify_folders parse_directory
    simp only [h]
  · intro h1 h2
    unfold fetchMeta
    simp only [h1, h2]

/-- Witness for the amended C6 theorem: a 404 on the base directory
yields an empty classified-folder list with a warning, not an abort. -/
theorem crawl_error_recovery_witness :
    scan_and_classify_folders (fun _ => FetchResult.ok 404 ["a/"]) "b" =
      .ok ([], true) :=
  (crawl_error_recovery (fun _ => FetchResult.ok 404 ["a/"])
    (fun _ => FetchResult.netRaise) "b" "u" []).1 404 ["a/"] rfl (by decide)

/-! ## Classifier characterization (C2, C10) -/

theorem splitField_append (f : List Char) (hne : f ≠ []) (hnu : '_' ∉ f)
    (r : List Char) : splitField (f ++ '_' :: r) = some (f, r) :=
  splitField_eq_some.mpr ⟨rfl, hne, hnu⟩

/-- Evaluating `classify_folder` on a fully decomposed matching name. -/
theorem classifyChars_decomp (f1 f2 f3 f4 f5 f6 f7 f8 rest : List Char)
    (g1 : goodField f1) (g2 : goodField f2) (g3 : goodField f3)
    (h4 : f4 ≠ []) (h4d : f4.all Char.isDigit = true)
    (g5 : goodField f5) (g6 : goodField f6) (g7 : goodField f7)
    (g8 : goodField f8)
    (hrest : rest.takeWhile (fun c => c ≠ '/') ≠ []) :
    classifyChars (f1 ++ '_' :: (f2 ++ '_' :: (f3 ++ '_' :: (f4 ++ '_' ::
        (f5 ++ '_' :: (f6 ++ '_' :: (f7 ++ '_' :: (f8 ++ '_' :: rest)))))))) =
      some ⟨String.mk f1, String.mk f2, String.mk f3, String.mk f4,
        String.mk f5, String.mk f6, String.mk f7, String.mk (unquoteChars f8),
        String.mk (unquoteChars (rest.takeWhile (fun c => c ≠ '/')))⟩ := by
  have nu4 : '_' ∉ f4 := by
    intro hm
    have h2 := List.all_eq_true.mp h4d '_' hm
    exact absurd h2 (by decide)
  unfold classifyChars
  simp only [splitField_append f1 g1.1 g1.2, splitField_append f2 g2.1 g2.2,
    splitField_append f3 g3.1 g3.2, splitField_append f4 h4 nu4]
  rw [if_pos h4d]
  simp only [splitField_append f5 g5.1 g5.2, splitField_append f6 g6.1 g6.2,
    splitField_append f7 g7.1 g7.2, splitField_append f8 g8.1 g8.2]
  rw [if_neg hrest]

/-- Decomposition of every name `classify_folder` accepts. -/
theorem classifyChars_some_decomp : ∀ {cs : List Char} {r : Classified},
    classifyChars cs = some r →
    ∃ f1 f2 f3 f4 f5 f6 f7 f8 rest : List Char,
      cs = f1 ++ '_' :: (f2 ++ '_' :: (f3 ++ '_' :: (f4 ++ '_' :: (f5 ++ '_' ::
        (f6 ++ '_' :: (f7 ++ '_' :: (f8 ++ '_' :: rest))))))) ∧
      goodField f1 ∧ goodField f2 ∧ goodField f3 ∧
      f4 ≠ [] ∧ f4.all Char.isDigit = true ∧
      goodField f5 ∧ goodField f6 ∧ goodField f7 ∧ goodField f8 ∧
      rest.takeWhile (fun c => c ≠ '/') ≠ [] ∧
      r = ⟨String.mk f1, String.mk f2, String.mk f3, String.mk f4,
        String.mk f5, String.mk f6, String.mk f7, String.mk (unquoteChars f8),
        String.mk (unquoteChars (rest.takeWhile (fun c => c ≠ '/')))⟩ := by
  intro cs r h
  unfold classifyChars at h
  split at h
  · exact Option.noConfusion h
  next f1 r1 hs1 =>
  split at h
  · exact Option.noConfusion h
  next f2 r2 hs2 =>
  split at h
  · exact Option.noConfusion h
  next f3 r3 hs3 =>
  split at h
  · exact Option.noConfusion h
  next f4 r4 hs4 =>
  split at h
  case isFalse => exact Option.noConfusion h
  case isTrue h4d =>
  split at h
  · exact Option.noConfusion h
  next f5 r5 hs5 =>
  split at h
  · exact Option.noConfusion h
  next f6 r6 hs6 =>
  split at h
  · exact Option.noConfusion h
  next f7 r7 hs7 =>
  split at h
  · exact Option.noConfusion h
  next f8 r8 hs8 =>
  split at h
  case isTrue => exact Option.noConfusion h
  case isFalse hrest =>
  injection h with hr
  obtain ⟨e1, n1, u1⟩ := splitField_eq_some.mp hs1
  obtain ⟨e2, n2, u2⟩ := splitField_eq_some.mp hs2
  obtain ⟨e3, n3, u3⟩ := splitField_eq_some.mp hs3
  obtain ⟨e4, n4, u4⟩ := splitField_eq_some.mp hs4
  obtain ⟨e5, n5, u5⟩ := splitField_eq_some.mp hs5
  obtain ⟨e6, n6, u6⟩ := splitField_eq_some.mp hs6
  obtain ⟨e7, n7, u7⟩ := splitField_eq_some.mp hs7
  obtain ⟨e8, n8, u8⟩ := splitField_eq_some.mp hs8
  subst e8; subst e7; subst e6; subst e5; subst e4; subst e3; subst e2
  subst e1
  exact ⟨f1, f2, f3, f4, f5, f6, f7, f8, r8, rfl, ⟨n1, u1⟩, ⟨n2, u2⟩,
    ⟨n3, u3⟩, n4, h4d, ⟨n5, u5⟩, ⟨n6, u6⟩, ⟨n7, u7⟩, ⟨n8, u8⟩, hrest, hr.symm⟩

/-- C2 counterexample: under the claimed grammar (acceleration_mode
optional) the eight-field name below matches, but the code's pattern
requires a ninth field and `classify_folder` returns the no-match
sentinel for it. -/
theorem classify_eight_field_name_rejected :
    specGrammarEight ("Tesla_Model3_LR_2022_P3_Dual_Dual_Stock").data ∧
      classify_folder "Tesla_Model3_LR_2022_P3_Dual_Dual_Stock" = none := by
  constructor
  · exact ⟨"Tesla".data, "Model3".data, "LR".data, "2022".data, "P3".data,
      "Dual".data, "Dual".data, "Stock".data, by decide, by decide, by decide,
      by decide, by decide, by decide, by decide, by decide, by decide,
      by decide⟩
  · decide

/-- C2 amended: `classify_folder` succeeds exactly on the names matching
the nine-field pattern (the ninth field is required, not optional), and
every record it returns has all nine attribute keys populated with
nonempty values; every other name yields the no-match sentinel. -/
theorem classify_folder_totality :
    (∀ name : String, (classify_folder name).isSome ↔ matchesPattern name.data) ∧
    (∀ (name : String) (r : Classified), classify_folder name = some r →
      r.manufacturer ≠ "" ∧ r.model ≠ "" ∧ r.variant ≠ "" ∧
      r.model_year ≠ "" ∧ r.battery ≠ "" ∧ r.front_motor ≠ "" ∧
      r.rear_motor ≠ "" ∧ r.tuning ≠ "" ∧ r.acceleration_mode ≠ "") := by
  constructor
  · intro name
    constructor
    · intro h
      obtain ⟨r, hr⟩ := Option.isSome_iff_exists.mp h
      obtain ⟨f1, f2, f3, f4, f5, f6, f7, f8, rest, e, g1, g2, g3, n4, h4d,
        g5, g6, g7, g8, hrest, -⟩ := classifyChars_some_decomp hr
      exact ⟨f1, f2, f3, f4, f5, f6, f7, f8, rest, e, g1, g2, g3, n4, h4d,
        g5, g6, g7, g8, hrest⟩
    · rintro ⟨f1, f2, f3, f4, f5, f6, f7, f8, rest, e, g1, g2, g3, n4, h4d,
        g5, g6, g7, g8, hrest⟩
      unfold classify_folder
      rw [e, classifyChars_decomp f1 f2 f3 f4 f5 f6 f7 f8 rest
        g1 g2 g3 n4 h4d g5 g6 g7 g8 hrest]
      rfl
  · intro name r h
    obtain ⟨f1, f2, f3, f4, f5, f6, f7, f8, rest, e, g1, g2, g3, n4, h4d,
      g5, g6, g7, g8, hrest, hreq⟩ := classifyChars_some_decomp h
    subst hreq
    exact ⟨mk_ne_empty g1.1, mk_ne_empty g2.1, mk_ne_empty g3.1,
      mk_ne_empty n4, mk_ne_empty g5.1, mk_ne_empty g6.1, mk_ne_empty g7.1,
      mk_ne_empty (unquoteChars_ne_nil g8.1),
      mk_ne_empty (unquoteChars_ne_nil hrest)⟩

/-- Witness for the amended C2 theorem at a concrete matching name. -/
theorem classify_folder_totality_witness :
    matchesPattern ("Tesla_Model3_LR_2022_P3_Dual_Dual_Stock_Sport").data ∧
      (⟨"Tesla", "Model3", "LR", "2022", "P3", "Dual", "Dual", "Stock",
        "Sport"⟩ : Classified).tuning ≠ "" :=
  ⟨(classify_folder_totality.1 "Tesla_Model3_LR_2022_P3_Dual_Dual_Stock_Sport").mp
      (by decide),
    (classify_folder_totality.2 "Tesla_Model3_LR_2022_P3_Dual_Dual_Stock_Sport"
      ⟨"Tesla", "Model3", "LR", "2022", "P3", "Dual", "Dual", "Stock", "Sport"⟩
      (by decide)).2.2.2.2.2.2.2.1⟩

/-! ## C10 — absorption of extra fields into acceleration_mode -/

theorem takeWhile_all_ne {cs : List Char} (h : '/' ∉ cs) :
    cs.takeWhile (fun c => c ≠ '/') = cs := by
  induction cs with
  | nil => rfl
  | cons c rest ih =>
    have hc : c ≠ '/' := fun e => h (e ▸ List.mem_cons_self c rest)
    have hr : '/' ∉ rest := fun m => h (List.mem_cons_of_mem c m)
    simp only [List.takeWhile_cons]
    rw [if_pos (decide_eq_true hc)]
    exact congrArg (List.cons c) (ih hr)

theorem underscoreJoin_no_slash : ∀ l : List (List Char),
    (∀ t ∈ l, '/' ∉ t) → '/' ∉ underscoreJoin l := by
  intro l
  induction l with
  | nil => intro _; simp [underscoreJoin]
  | cons f rest ih =>
    intro h
    rcases rest with _ | ⟨g, gs⟩
    · simpa [underscoreJoin] using h f (by simp)
    · intro hm
      rw [show underscoreJoin (f :: g :: gs) =
          f ++ '_' :: underscoreJoin (g :: gs) from rfl] at hm
      rcases List.mem_append.mp hm with hf | hrest
      · exact h f (by simp) hf
      · rcases List.mem_cons.mp hrest with he | hj
        · exact absurd he (by decide)
        · exact ih (fun t ht => h t (List.mem_cons_of_mem f ht)) hj

theorem underscoreJoin_ne_nil (f : List Char) (l : List (List Char))
    (h : f ≠ []) : underscoreJoin (f :: l) ≠ [] := by
  rcases l with _ | ⟨g, gs⟩
  · simpa [underscoreJoin] using h
  · rw [show underscoreJoin (f :: g :: gs) =
        f ++ '_' :: underscoreJoin (g :: gs) from rfl]
    simp

/-- C10 counterexample: the name `A_B_C_1_D_E_F_G_%41` has nine nonempty
underscore-separated fields with a numeric fourth field, so the claim
says its ninth field is absorbed verbatim; but `classify_folder` stores
the percent-decoded `A`, not the verbatim `%41` (the `unquote` applied to
the captured group). -/
theorem classify_tail_not_verbatim :
    (classify_folder "A_B_C_1_D_E_F_G_%41").map Classified.acceleration_mode =
      some "A" ∧ ("A" : String) ≠ "%41" := by
  constructor <;> decide

/-- C10 amended: for every name built from nine or more slash-free
nonempty fields joined by underscores, with an all-digit fourth field and
the first eight underscore-free, `classify_folder` succeeds, and
everything after the eighth underscore — fields nine onward, underscores
included — is absorbed into `acceleration_mode` after one percent-decoding
(verbatim exactly when it contains no percent escape). -/
theorem classify_absorbs_extra_fields (f1 f2 f3 f4 f5 f6 f7 f8 f9 : List Char)
    (tail : List (List Char))
    (g1 : goodField f1) (g2 : goodField f2) (g3 : goodField f3)
    (h4 : f4 ≠ []) (h4d : f4.all Char.isDigit = true)
    (g5 : goodField f5) (g6 : goodField f6) (g7 : goodField f7)
    (g8 : goodField f8)
    (h9 : ∀ t ∈ f9 :: tail, t ≠ [] ∧ '/' ∉ t) :
    classifyChars (underscoreJoin ([f1, f2, f3, f4, f5, f6, f7, f8, f9] ++ tail)) =
      some ⟨String.mk f1, String.mk f2, String.mk f3, String.mk f4,
        String.mk f5, String.mk f6, String.mk f7, String.mk (unquoteChars f8),
        String.mk (unquoteChars (underscoreJoin (f9 :: tail)))⟩ := by
  have hrest_ne : underscoreJoin (f9 :: tail) ≠ [] :=
    underscoreJoin_ne_nil f9 tail (h9 f9 (by simp)).1
  have hnos : '/' ∉ underscoreJoin (f9 :: tail) :=
    underscoreJoin_no_slash (f9 :: tail) (fun t ht => (h9 t ht).2)
  have htake : (underscoreJoin (f9 :: tail)).takeWhile (fun c => c ≠ '/') =
      underscoreJoin (f9 :: tail) := takeWhile_all_ne hnos
  have hj : underscoreJoin ([f1, f2, f3, f4, f5, f6, f7, f8, f9] ++ tail) =
      f1 ++ '_' :: (f2 ++ '_' :: (f3 ++ '_' :: (f4 ++ '_' :: (f5 ++ '_' ::
        (f6 ++ '_' :: (f7 ++ '_' ::
          (f8 ++ '_' :: underscoreJoin (f9 :: tail)))))))) := rfl
  rw [hj, classifyChars_decomp f1 f2 f3 f4 f5 f6 f7 f8
    (underscoreJoin (f9 :: tail)) g1 g2 g3 h4 h4d g5 g6 g7 g8
    (by rw [htake]; exact hrest_ne), htake]

/-- Witness for the amended C10 theorem: a ten-field name whose last two
fields are absorbed, underscore included, into acceleration_mode. -/
theorem classify_absorbs_extra_fields_witness :
    classifyChars (underscoreJoin ([['A'], ['B'], ['C'], ['1'], ['D'], ['E'],
        ['F'], ['G'], ['H']] ++ [['I']])) =
      some ⟨"A", "B", "C", "1", "D", "E", "F", "G", "H_I"⟩ :=
  classify_absorbs_extra_fields ['A'] ['B'] ['C'] ['1'] ['D'] ['E'] ['F']
    ['G'] ['H'] [['I']] (by decide) (by decide) (by decide) (by decide)
    (by decide) (by decide) (by decide) (by decide) (by decide) (by decide)

end Tesla
